import Mathlib

/-!
Shallow embedding of src/download.py (a podcast feed refresher/downloader).

Modelling conventions:
* Timestamps are UTC instants in whole seconds, as `Int`; Python
  `timedelta.days` is floor division of the elapsed seconds by 86400,
  embedded via `Int.fdiv`.
* The network is a deterministic oracle.  For episode downloads,
  `net : String → ReqOutcome` gives the outcome of one streaming GET of a
  URL (`requests.get(url, stream=True, ...)`); for feed fetches,
  `net : String → Nat → Option ParsedFeed` gives the outcome of attempt
  `k` of `feedparser.parse(url)` (`none` = the attempt raised).
* Side effects are threaded explicitly through `DlState`: the set of
  files and directories on disk, the list of printed diagnostics (as
  tags), and a counter of network requests issued.
* A Python function that can raise an exception out of its body returns a
  `Bool` flag (`true` = an uncaught exception escaped) next to its state.
* Link dictionaries come from feedparser; the data model guarantees only
  `href` and `type`, so the `title` key read by the failure-report line in
  `download_episode` is `Option String` (`none` = key absent, so the
  subscript raises `KeyError`).
-/

/-- One resource reference attached to an entry (`entry["links"][i]`). -/
structure Link where
  href : String
  type : String
  title : Option String
deriving Repr, DecidableEq

/-- One episode within a feed (`feed["entries"][i]`). -/
structure Entry where
  title : String
  links : List Link
deriving Repr, DecidableEq

/-- One stored feed document of the `feeds` table. -/
structure Feed where
  title : String
  url : String
  entries : List Entry
  last_updated : Option Int
deriving Repr, DecidableEq

/-- Result of `feedparser.parse` (only the field the code reads). -/
structure ParsedFeed where
  entries : List Entry
deriving Repr, DecidableEq

/-- Outcome of one streaming `requests.get` on a URL. -/
inductive ReqOutcome where
  /-- the request raised `requests.exceptions.ReadTimeout` -/
  | timeout
  /-- the request raised some other `requests` exception (connection
      error, connect timeout, ...) that `download_file` does not catch -/
  | connError
  /-- the request returned a response with this status code and body -/
  | ok (status : Nat) (content : String)
deriving Repr, DecidableEq

/-- Observable side effects of a downloader run. -/
structure DlState where
  /-- directories present on disk -/
  dirs : List String
  /-- files present on disk (paths) -/
  files : List String
  /-- printed diagnostics, as tags -/
  log : List String
  /-- number of network requests issued so far -/
  requests : Nat
deriving Repr, DecidableEq

/-- Writing `dest` (mode `"wb"`): creates the file, or truncates and
rewrites it if it already exists; the set of paths on disk gains `dest`
at most once. -/
def writeFile (dest : String) (files : List String) : List String :=
  if files.contains dest then files else files ++ [dest]

/-- One attempt of the body of `download_file(url, dest)` (lines 35-62).
Returns `true` iff the attempt raised.  A `ReadTimeout` is caught and
printed, but then the local `response` is unbound and `response.headers`
raises; any other request exception propagates directly.  A non-success
status makes `raise_for_status` raise `HTTPError`, which is caught and
printed, and the attempt returns normally without opening `dest`;
a success status streams the body to `dest`. -/
def download_file_attempt (net : String → ReqOutcome) (url dest : String)
    (s : DlState) : Bool × DlState :=
  let s1 : DlState := { s with requests := s.requests + 1 }
  match net url with
  | ReqOutcome.timeout => (true, { s1 with log := s1.log ++ ["timeout_printed"] })
  | ReqOutcome.connError => (true, s1)
  | ReqOutcome.ok status _content =>
      if 400 ≤ status then
        (false, { s1 with log := s1.log ++ ["http_error_printed"] })
      else
        (false, { s1 with files := writeFile dest s1.files })

/-- Embeds `download_file` as decorated by `@retry(stop=stop_after_attempt(3))`:
the body runs up to three times; if all three attempts raise, the call
raises `tenacity.RetryError` (the returned flag). -/
def download_file (net : String → ReqOutcome) (url dest : String)
    (s : DlState) : Bool × DlState :=
  match download_file_attempt net url dest s with
  | (false, s1) => (false, s1)
  | (true, s1) =>
    match download_file_attempt net url dest s1 with
    | (false, s2) => (false, s2)
    | (true, s2) =>
      match download_file_attempt net url dest s2 with
      | (false, s3) => (false, s3)
      | (true, s3) => (true, s3)

/-- The `for link in entry["links"]` loop of `download_episode` (lines
73-79).  Every link of type `audio/mpeg` is downloaded to the same
`download_path`; a `RetryError` is caught and reported with
`link["title"]` — if that key is absent the report itself raises
`KeyError`, which propagates (flag `true`). -/
def download_episode_links (net : String → ReqOutcome) (download_path : String) :
    List Link → DlState → Bool × DlState
  | [], s => (false, s)
  | link :: rest, s =>
    if link.type = "audio/mpeg" then
      let s1 : DlState := { s with log := s.log ++ ["downloading_printed"] }
      match download_file net link.href download_path s1 with
      | (false, s2) => download_episode_links net download_path rest s2
      | (true, s2) =>
        match link.title with
        | none => (true, s2)
        | some _ =>
          download_episode_links net download_path rest
            { s2 with log := s2.log ++ ["unable_after_3_tries_printed"] }
    else
      download_episode_links net download_path rest s

/-- Embeds `download_episode(entry, dir)` (lines 65-79): skip when the
destination file already exists, otherwise download every `audio/mpeg`
link to `dir / (entry title ++ ".mp3")`. -/
def download_episode (net : String → ReqOutcome) (entry : Entry)
    (dir : String) (s : DlState) : Bool × DlState :=
  let download_path := dir ++ "/" ++ entry.title ++ ".mp3"
  if s.files.contains download_path then
    (false, { s with log := s.log ++ ["already_downloaded_printed"] })
  else
    download_episode_links net download_path entry.links s

/-- The entry loop of `download_feed` (line 91-92), over the first
`limit` stored entries; an exception from `download_episode` aborts the
remaining entries (flag `true`). -/
def download_feed_entries (net : String → ReqOutcome) (feed_dir : String) :
    List Entry → DlState → Bool × DlState
  | [], s => (false, s)
  | e :: rest, s =>
    match download_episode net e feed_dir s with
    | (false, s1) => download_feed_entries net feed_dir rest s1
    | (true, s1) => (true, s1)

/-- Embeds `feed["title"].replace("/", "_")` (line 88): the pattern is the single
character `/`, so the replacement is a character-by-character map. -/
def sanitize_title (t : String) : String :=
  String.mk (t.data.map (fun c => if c = '/' then '_' else c))

/-- Embeds `download_feed(feed, out_dir, limit)` (lines 82-92): compute the feed
directory from the title with `/` replaced by `_`, create it if absent,
and download the first `limit` stored entries in order. -/
def download_feed (net : String → ReqOutcome) (feed : Feed)
    (out_dir : String) (limit : Nat) (s : DlState) : Bool × DlState :=
  let feed_dir := out_dir ++ "/" ++ sanitize_title feed.title
  let s1 : DlState :=
    if s.dirs.contains feed_dir then s else { s with dirs := s.dirs ++ [feed_dir] }
  download_feed_entries net feed_dir (feed.entries.take limit) s1

/-- Embeds `older_than_1_day(dt)` (lines 95-96): `dt is None or
(datetime.datetime.utcnow() - dt).days > 1`.  `timedelta.days` floors the
elapsed seconds to whole days (`Int.fdiv`). -/
def older_than_1_day (now : Int) (dt : Option Int) : Bool :=
  match dt with
  | none => true
  | some t => decide (1 < Int.fdiv (now - t) 86400)

/-- Embeds `tenacity.retry(stop=stop_after_attempt(3))` around an attempt oracle:
run attempt 0; on an exception attempt 1, then attempt 2; if all three
raise, raise `RetryError` (`none`).  Also returns the number of attempts
made. -/
def retry_stop_after_3 {α : Type} (attempt : Nat → Option α) : Option α × Nat :=
  match attempt 0 with
  | some a => (some a, 1)
  | none =>
    match attempt 1 with
    | some a => (some a, 2)
    | none =>
      match attempt 2 with
      | some a => (some a, 3)
      | none => (none, 3)

/-- Embeds `parse_feed(url)` (lines 21-31) as decorated by
`@retry(stop=stop_after_attempt(3))`: attempt `feedparser.parse(url)` up
to three times; `none` = `RetryError` escaped. -/
def parse_feed (net : String → Nat → Option ParsedFeed) (url : String) :
    Option ParsedFeed :=
  (retry_stop_after_3 (net url)).1

/-- Embeds `feeds.update({"entries": e, "last_updated": now}, Feed.title == t)`:
set the two fields on every stored document whose title is `t`. -/
def store_update (t : String) (e : List Entry) (now : Int)
    (store : List Feed) : List Feed :=
  store.map (fun g => if g.title = t then
    { g with entries := e, last_updated := some now } else g)

/-- The `for feed in unfresh_feeds` loop of `update_feeds` (lines
109-111).  Each candidate is fetched with `parse_feed`; on success the
store is updated keyed by the candidate title; an uncaught `RetryError`
from `parse_feed` aborts the loop (flag `true`), leaving the updates
already persisted in place. -/
def update_feeds_go (net : String → Nat → Option ParsedFeed) (now : Int)
    (max_entries_per_feed : Nat) :
    List Feed → List Feed → Bool × List Feed
  | [], store => (false, store)
  | f :: rest, store =>
    match parse_feed net f.url with
    | none => (true, store)
    | some pf =>
      update_feeds_go net now max_entries_per_feed rest
        (store_update f.title (pf.entries.take max_entries_per_feed) now store)

/-- The stale-candidate selection of `update_feeds` (lines 103-107):
all stored feeds under `force_updates`, else
`feeds.search(Feed.last_updated.test(older_than_1_day))`. -/
def unfresh_feeds (now : Int) (force_updates : Bool)
    (store : List Feed) : List Feed :=
  if force_updates then store
  else store.filter (fun f => older_than_1_day now f.last_updated)

/-- Embeds `update_feeds(feeds, max_entries_per_feed, force_updates)` (lines
99-112).  Returns the abort flag (an exception escaped the loop) and the
final store. -/
def update_feeds (net : String → Nat → Option ParsedFeed) (now : Int)
    (store : List Feed) (max_entries_per_feed : Nat)
    (force_updates : Bool) : Bool × List Feed :=
  update_feeds_go net now max_entries_per_feed
    (unfresh_feeds now force_updates store) store

/-- One `<outline>` entry of a parsed OPML document (`listparser`). -/
structure OpmlFeed where
  title : String
  url : String
deriving Repr, DecidableEq

/-- Embeds `parse_opml(file)` (lines 115-120): each parsed outline yields a feed
record with empty `entries` and null `last_updated`.  `opml` is the
filesystem-plus-listparser oracle, mapping a path to the outlines of the
document stored there. -/
def parse_opml (opml : String → List OpmlFeed) (file : String) : List Feed :=
  (opml file).map (fun p =>
    { title := p.title, url := p.url, entries := [], last_updated := none })

/-- Embeds `feeds.upsert(doc, Query()["title"] == doc["title"])`: replace every
stored document with a matching title by `doc`, or append `doc` when no
title matches. -/
def upsert (store : List Feed) (f : Feed) : List Feed :=
  if store.any (fun g => g.title = f.title) then
    store.map (fun g => if g.title = f.title then f else g)
  else store ++ [f]

/-- Embeds `import_opml(feeds, file)` (lines 123-126).  NOTE: the source ignores
its `file` argument and parses the hard-coded path
`"podcasts_opml.xml"`. -/
def import_opml (opml : String → List OpmlFeed) (store : List Feed)
    (file : String) : List Feed :=
  (parse_opml opml "podcasts_opml.xml").foldl upsert store

/-- Bool test used by the link loop: is this link an `audio/mpeg`
enclosure? -/
def is_audio (l : Link) : Bool := l.type = "audio/mpeg"

/-! ### Concrete fixtures used by counterexamples and witnesses -/

/-- Empty disk, no requests made yet. -/
def s0 : DlState := { dirs := [], files := [], log := [], requests := 0 }

/-- A network where every streaming request succeeds with HTTP 200. -/
def netOk : String → ReqOutcome := fun _ => ReqOutcome.ok 200 "audio-bytes"

/-- A network where every streaming request answers HTTP 404. -/
def net404 : String → ReqOutcome := fun _ => ReqOutcome.ok 404 "not-found"

/-- A network where every streaming request raises a connection error. -/
def netConnFail : String → ReqOutcome := fun _ => ReqOutcome.connError

/-- A network where every streaming request raises `ReadTimeout`. -/
def netTimeoutAll : String → ReqOutcome := fun _ => ReqOutcome.timeout

/-- An `audio/mpeg` enclosure link carrying a `title` key. -/
def audioLink (u : String) : Link :=
  { href := u, type := "audio/mpeg", title := some "enclosure" }

/-- An entry with a single `audio/mpeg` link. -/
def entryOneLink : Entry := { title := "E1", links := [audioLink "u1"] }

/-- An entry with two `audio/mpeg` links. -/
def entryTwoLinks : Entry :=
  { title := "E2", links := [audioLink "u1", audioLink "u2"] }

/-- An entry with one link that is not `audio/mpeg`. -/
def entryNoAudio : Entry :=
  { title := "E0", links := [{ href := "u0", type := "text/html", title := none }] }

/-- A stored feed with one single-audio-link entry. -/
def feedOne : Feed :=
  { title := "ShowA", url := "feedurl", entries := [entryOneLink],
    last_updated := none }

/-- An entry used by concrete refresher runs. -/
def mkEntry (t : String) : Entry := { title := t, links := [] }

/-- Stored feed `A`, never refreshed. -/
def feedA : Feed := { title := "A", url := "urlA", entries := [], last_updated := none }

/-- Stored feed `B`, never refreshed. -/
def feedB : Feed := { title := "B", url := "urlB", entries := [], last_updated := none }

/-- A feed-fetch network where `urlA` raises on every attempt and every
other URL parses to one entry. -/
def netFeedsAfail : String → Nat → Option ParsedFeed :=
  fun u _ => if u = "urlA" then none else some { entries := [mkEntry "X"] }

/-- A stored feed last refreshed 1.5 days before the evaluation instant
used in the C3 counterexample. -/
def feedHalfStale : Feed :=
  { title := "F", url := "u", entries := [], last_updated := some 0 }

/-- A feed-fetch network returning five entries for every URL on every
attempt. -/
def netFeeds5 : String → Nat → Option ParsedFeed :=
  fun _ _ => some { entries :=
    [mkEntry "X1", mkEntry "X2", mkEntry "X3", mkEntry "X4", mkEntry "X5"] }

/-- A filesystem/OPML oracle: the path `my_subs.xml` holds one outline,
any other path (in particular the hard-coded `podcasts_opml.xml`) holds
none. -/
def opmlFsC5 : String → List OpmlFeed :=
  fun p => if p = "my_subs.xml" then [{ title := "NewShow", url := "newurl" }] else []

/-! ### Helper lemmas about `download_file` -/

theorem download_file_timeout_eq (net : String → ReqOutcome) (url dest : String)
    {s : DlState} (h : net url = ReqOutcome.timeout) :
    download_file net url dest s =
      (true,
        { s with
            requests := s.requests + 3
            log := s.log ++ ["timeout_printed", "timeout_printed", "timeout_printed"] }) := by
  simp only [download_file, download_file_attempt, h]
  refine congrArg (Prod.mk true) ?_
  simp [List.append_assoc]

theorem download_file_connError_eq (net : String → ReqOutcome) (url dest : String)
    {s : DlState} (h : net url = ReqOutcome.connError) :
    download_file net url dest s = (true, { s with requests := s.requests + 3 }) := by
  simp only [download_file, download_file_attempt, h]

theorem download_file_ok_success_eq (net : String → ReqOutcome) (url dest : String)
    {s : DlState} (st : Nat) (c : String) (h : net url = ReqOutcome.ok st c)
    (hst : st < 400) :
    download_file net url dest s =
      (false, { s with requests := s.requests + 1, files := writeFile dest s.files }) := by
  simp [download_file, download_file_attempt, h, Nat.not_le.mpr hst]

theorem download_file_ok_httpError_eq (net : String → ReqOutcome) (url dest : String)
    {s : DlState} (st : Nat) (c : String) (h : net url = ReqOutcome.ok st c)
    (hst : 400 ≤ st) :
    download_file net url dest s =
      (false,
        { s with
            requests := s.requests + 1
            log := s.log ++ ["http_error_printed"] }) := by
  simp [download_file, download_file_attempt, h, hst]

/-! ### Helper lemmas about `download_episode_links` -/

theorem links_no_audio_eq (net : String → ReqOutcome) (dp : String)
    (links : List Link) (s : DlState)
    (h : ∀ l ∈ links, ¬ l.type = "audio/mpeg") :
    download_episode_links net dp links s = (false, s) := by
  induction links with
  | nil => rfl
  | cons l rest ih =>
      have hl : ¬ l.type = "audio/mpeg" := h l (by simp)
      simp only [download_episode_links, if_neg hl]
      exact ih (fun x hx => h x (by simp [hx]))

theorem writeFile_idem (dest : String) (fs : List String) :
    writeFile dest (writeFile dest fs) = writeFile dest fs := by
  unfold writeFile
  split
  · simp_all
  · simp

theorem writeFile_contains_self (dest : String) (fs : List String) :
    (writeFile dest fs).contains dest = true := by
  unfold writeFile
  split
  · assumption
  · simp

theorem writeFile_contains_mono (dest x : String) (fs : List String)
    (h : fs.contains x = true) : (writeFile dest fs).contains x = true := by
  unfold writeFile
  split
  · exact h
  · simp_all

theorem mem_writeFile_iff (dest x : String) (fs : List String) :
    x ∈ writeFile dest fs ↔ x = dest ∨ x ∈ fs := by
  unfold writeFile
  split
  · rename_i hc
    have hd : dest ∈ fs := by simpa using hc
    constructor
    · exact fun hx => Or.inr hx
    · rintro (rfl | hx)
      · exact hd
      · exact hx
  · simp
    tauto

theorem length_writeFile_le (dest : String) (fs : List String) :
    (writeFile dest fs).length ≤ fs.length + 1 := by
  unfold writeFile
  split
  · omega
  · simp

theorem download_file_dirs_eq (net : String → ReqOutcome) (url dest : String)
    (s : DlState) : (download_file net url dest s).2.dirs = s.dirs := by
  rcases hn : net url with _ | _ | ⟨st, c⟩
  · rw [download_file_timeout_eq net url dest hn]
  · rw [download_file_connError_eq net url dest hn]
  · by_cases hst : 400 ≤ st
    · rw [download_file_ok_httpError_eq net url dest st c hn hst]
    · rw [download_file_ok_success_eq net url dest st c hn (Nat.not_le.mp hst)]

theorem download_file_files_cases (net : String → ReqOutcome) (url dest : String)
    (s : DlState) :
    (download_file net url dest s).2.files = s.files ∨
    (download_file net url dest s).2.files = writeFile dest s.files := by
  rcases hn : net url with _ | _ | ⟨st, c⟩
  · rw [download_file_timeout_eq net url dest hn]
    exact Or.inl rfl
  · rw [download_file_connError_eq net url dest hn]
    exact Or.inl rfl
  · by_cases hst : 400 ≤ st
    · rw [download_file_ok_httpError_eq net url dest st c hn hst]
      exact Or.inl rfl
    · rw [download_file_ok_success_eq net url dest st c hn (Nat.not_le.mp hst)]
      exact Or.inr rfl

theorem download_file_contains_mono (net : String → ReqOutcome) (url dest x : String)
    (s : DlState) (h : s.files.contains x = true) :
    (download_file net url dest s).2.files.contains x = true := by
  rcases download_file_files_cases net url dest s with hc | hc <;> rw [hc]
  · exact h
  · exact writeFile_contains_mono dest x s.files h

/-- When every `audio/mpeg` link of the list responds with a success
status, the link loop returns normally, issues exactly one streaming
request per `audio/mpeg` link (all aimed at the same destination), and
the destination file ends up on disk exactly when some link matched. -/
theorem links_all_ok (net : String → ReqOutcome) (dp : String)
    (links : List Link) (s : DlState)
    (h : ∀ l ∈ links, is_audio l = true →
      ∃ st c, net l.href = ReqOutcome.ok st c ∧ st < 400) :
    (download_episode_links net dp links s).1 = false ∧
    (download_episode_links net dp links s).2.requests =
      s.requests + (links.filter is_audio).length ∧
    (download_episode_links net dp links s).2.files =
      (if links.any is_audio then writeFile dp s.files else s.files) := by
  induction links generalizing s with
  | nil => simp [download_episode_links]
  | cons l rest ih =>
      by_cases ha : l.type = "audio/mpeg"
      · obtain ⟨st, c, hnet, hst⟩ := h l (by simp) (by simp [is_audio, ha])
        have hrest : ∀ x ∈ rest, is_audio x = true →
            ∃ st c, net x.href = ReqOutcome.ok st c ∧ st < 400 :=
          fun x hx hax => h x (by simp [hx]) hax
        simp only [download_episode_links, if_pos ha,
          download_file_ok_success_eq net l.href dp st c hnet hst]
        obtain ⟨h1, h2, h3⟩ := ih
          { s with log := s.log ++ ["downloading_printed"],
                   files := writeFile dp s.files,
                   requests := s.requests + 1 } hrest
        refine ⟨h1, ?_, ?_⟩
        · rw [h2]
          simp [is_audio, ha]
          omega
        · rw [h3]
          simp [is_audio, ha, writeFile_idem]
      · have hrest : ∀ x ∈ rest, is_audio x = true →
            ∃ st c, net x.href = ReqOutcome.ok st c ∧ st < 400 :=
          fun x hx hax => h x (by simp [hx]) hax
        obtain ⟨h1, h2, h3⟩ := ih s hrest
        simp only [download_episode_links, if_neg ha]
        refine ⟨h1, ?_, ?_⟩
        · rw [h2]
          simp [is_audio, ha]
        · rw [h3]
          simp [is_audio, ha]

theorem links_dirs_eq (net : String → ReqOutcome) (dp : String)
    (links : List Link) (s : DlState) :
    (download_episode_links net dp links s).2.dirs = s.dirs := by
  induction links generalizing s with
  | nil => rfl
  | cons l rest ih =>
      by_cases ha : l.type = "audio/mpeg"
      · simp only [download_episode_links, if_pos ha]
        rcases hdf : download_file net l.href dp
          { s with log := s.log ++ ["downloading_printed"] } with ⟨flag, s2⟩
        have hd : s2.dirs = s.dirs := by
          have hh := download_file_dirs_eq net l.href dp
            { s with log := s.log ++ ["downloading_printed"] }
          rw [hdf] at hh
          simpa using hh
        cases flag
        · exact (ih s2).trans hd
        · cases ht : l.title
          · exact hd
          · exact (ih _).trans hd
      · simp only [download_episode_links, if_neg ha]
        exact ih s

theorem links_files_cases (net : String → ReqOutcome) (dp : String)
    (links : List Link) (s : DlState) :
    (download_episode_links net dp links s).2.files = s.files ∨
    (download_episode_links net dp links s).2.files = writeFile dp s.files := by
  induction links generalizing s with
  | nil => exact Or.inl rfl
  | cons l rest ih =>
      by_cases ha : l.type = "audio/mpeg"
      · simp only [download_episode_links, if_pos ha]
        rcases hdf : download_file net l.href dp
          { s with log := s.log ++ ["downloading_printed"] } with ⟨flag, s2⟩
        have hf : s2.files = s.files ∨ s2.files = writeFile dp s.files := by
          have hh := download_file_files_cases net l.href dp
            { s with log := s.log ++ ["downloading_printed"] }
          rw [hdf] at hh
          simpa using hh
        have step : ∀ y : DlState, y.files = s.files ∨ y.files = writeFile dp s.files →
            (download_episode_links net dp rest y).2.files = s.files ∨
            (download_episode_links net dp rest y).2.files = writeFile dp s.files := by
          intro y hy
          rcases ih y with hc | hc <;> rw [hc] <;> rcases hy with hy | hy <;> rw [hy]
          · exact Or.inl rfl
          · exact Or.inr rfl
          · exact Or.inr rfl
          · exact Or.inr (writeFile_idem dp s.files)
        cases flag
        · exact step s2 hf
        · cases ht : l.title
          · exact hf
          · exact step _ (by simpa using hf)
      · simp only [download_episode_links, if_neg ha]
        exact ih s

theorem links_contains_mono (net : String → ReqOutcome) (dp x : String)
    (links : List Link) (s : DlState) (h : s.files.contains x = true) :
    (download_episode_links net dp links s).2.files.contains x = true := by
  induction links generalizing s with
  | nil => exact h
  | cons l rest ih =>
      by_cases ha : l.type = "audio/mpeg"
      · simp only [download_episode_links, if_pos ha]
        rcases hdf : download_file net l.href dp
          { s with log := s.log ++ ["downloading_printed"] } with ⟨flag, s2⟩
        have hc : s2.files.contains x = true := by
          have hh := download_file_contains_mono net l.href dp x
            { s with log := s.log ++ ["downloading_printed"] } (by simpa using h)
          rw [hdf] at hh
          simpa using hh
        cases flag
        · exact ih s2 hc
        · cases ht : l.title
          · exact hc
          · exact ih _ (by simpa using hc)
      · simp only [download_episode_links, if_neg ha]
        exact ih s h

/-! ### Helper lemmas about `download_episode` and the entry loop -/

theorem episode_skip_eq (net : String → ReqOutcome) (e : Entry) (dir : String)
    (s : DlState)
    (h : s.files.contains (dir ++ "/" ++ e.title ++ ".mp3") = true) :
    download_episode net e dir s =
      (false, { s with log := s.log ++ ["already_downloaded_printed"] }) := by
  simp only [download_episode, if_pos h]

theorem episode_dirs_eq (net : String → ReqOutcome) (e : Entry) (dir : String)
    (s : DlState) : (download_episode net e dir s).2.dirs = s.dirs := by
  cases hc : s.files.contains (dir ++ "/" ++ e.title ++ ".mp3")
  · have hm : ¬ (s.files.contains (dir ++ "/" ++ e.title ++ ".mp3") = true) := by
      simpa using hc
    simp only [download_episode, if_neg hm]
    exact links_dirs_eq net _ e.links s
  · simp only [download_episode, if_pos hc]

theorem episode_files_cases (net : String → ReqOutcome) (e : Entry) (dir : String)
    (s : DlState) :
    (download_episode net e dir s).2.files = s.files ∨
    (download_episode net e dir s).2.files =
      writeFile (dir ++ "/" ++ e.title ++ ".mp3") s.files := by
  cases hc : s.files.contains (dir ++ "/" ++ e.title ++ ".mp3")
  · have hm : ¬ (s.files.contains (dir ++ "/" ++ e.title ++ ".mp3") = true) := by
      simpa using hc
    simp only [download_episode, if_neg hm]
    exact links_files_cases net _ e.links s
  · simp only [download_episode, if_pos hc]
    exact Or.inl trivial

theorem episode_contains_mono (net : String → ReqOutcome) (e : Entry)
    (dir x : String) (s : DlState) (h : s.files.contains x = true) :
    (download_episode net e dir s).2.files.contains x = true := by
  cases hc : s.files.contains (dir ++ "/" ++ e.title ++ ".mp3")
  · have hm : ¬ (s.files.contains (dir ++ "/" ++ e.title ++ ".mp3") = true) := by
      simpa using hc
    simp only [download_episode, if_neg hm]
    exact links_contains_mono net _ x e.links s h
  · simp only [download_episode, if_pos hc]
    exact h

theorem episode_all_ok (net : String → ReqOutcome) (e : Entry) (dir : String)
    (s : DlState)
    (hc : s.files.contains (dir ++ "/" ++ e.title ++ ".mp3") = false)
    (h : ∀ l ∈ e.links, is_audio l = true →
      ∃ st c, net l.href = ReqOutcome.ok st c ∧ st < 400) :
    (download_episode net e dir s).1 = false ∧
    (download_episode net e dir s).2.requests =
      s.requests + (e.links.filter is_audio).length ∧
    (download_episode net e dir s).2.files =
      (if e.links.any is_audio then
        writeFile (dir ++ "/" ++ e.title ++ ".mp3") s.files else s.files) := by
  have hm : ¬ (s.files.contains (dir ++ "/" ++ e.title ++ ".mp3") = true) := by
    simpa using hc
  simp only [download_episode, if_neg hm]
  exact links_all_ok net _ e.links s h

theorem episode_flag_false_of_ok (net : String → ReqOutcome) (e : Entry)
    (dir : String) (s : DlState)
    (h : ∀ l ∈ e.links, is_audio l = true →
      ∃ st c, net l.href = ReqOutcome.ok st c ∧ st < 400) :
    (download_episode net e dir s).1 = false := by
  cases hc : s.files.contains (dir ++ "/" ++ e.title ++ ".mp3")
  · exact (episode_all_ok net e dir s hc h).1
  · simp only [download_episode, if_pos hc]

theorem entries_dirs_eq (net : String → ReqOutcome) (dir : String)
    (entries : List Entry) (s : DlState) :
    (download_feed_entries net dir entries s).2.dirs = s.dirs := by
  induction entries generalizing s with
  | nil => rfl
  | cons e rest ih =>
      rcases hde : download_episode net e dir s with ⟨flag, s1⟩
      have hd : s1.dirs = s.dirs := by
        have hh := episode_dirs_eq net e dir s
        rw [hde] at hh
        simpa using hh
      simp only [download_feed_entries, hde]
      cases flag
      · exact (ih s1).trans hd
      · exact hd

theorem entries_contains_mono (net : String → ReqOutcome) (dir x : String)
    (entries : List Entry) (s : DlState) (h : s.files.contains x = true) :
    (download_feed_entries net dir entries s).2.files.contains x = true := by
  induction entries generalizing s with
  | nil => exact h
  | cons e rest ih =>
      rcases hde : download_episode net e dir s with ⟨flag, s1⟩
      have hc : s1.files.contains x = true := by
        have hh := episode_contains_mono net e dir x s h
        rw [hde] at hh
        simpa using hh
      simp only [download_feed_entries, hde]
      cases flag
      · exact ih s1 hc
      · exact hc

/-- Every file present after a run of the entry loop was present before
or is the destination path of one of the processed entries; the number
of files grows by at most one per entry. -/
theorem entries_files_scope (net : String → ReqOutcome) (dir : String)
    (entries : List Entry) (s : DlState) :
    (∀ x ∈ (download_feed_entries net dir entries s).2.files,
      x ∈ s.files ∨ x ∈ entries.map (fun e => dir ++ "/" ++ e.title ++ ".mp3")) ∧
    (download_feed_entries net dir entries s).2.files.length ≤
      s.files.length + entries.length := by
  induction entries generalizing s with
  | nil =>
      constructor
      · intro x hx
        exact Or.inl hx
      · simp [download_feed_entries]
  | cons e rest ih =>
      rcases hde : download_episode net e dir s with ⟨flag, s1⟩
      have hcases : s1.files = s.files ∨
          s1.files = writeFile (dir ++ "/" ++ e.title ++ ".mp3") s.files := by
        have hh := episode_files_cases net e dir s
        rw [hde] at hh
        simpa using hh
      have hmem1 : ∀ x ∈ s1.files, x ∈ s.files ∨ x = dir ++ "/" ++ e.title ++ ".mp3" := by
        intro x hx
        rcases hcases with hcc | hcc
        · rw [hcc] at hx
          exact Or.inl hx
        · rw [hcc] at hx
          rcases (mem_writeFile_iff _ x _).mp hx with h1 | h1
          · exact Or.inr h1
          · exact Or.inl h1
      have hlen1 : s1.files.length ≤ s.files.length + 1 := by
        rcases hcases with hcc | hcc <;> rw [hcc]
        · omega
        · exact length_writeFile_le _ _
      simp only [download_feed_entries, hde]
      cases flag
      · obtain ⟨ihm, ihl⟩ := ih s1
        constructor
        · intro x hx
          rcases ihm x hx with h1 | h1
          · rcases hmem1 x h1 with h2 | h2
            · exact Or.inl h2
            · refine Or.inr ?_
              rw [h2]
              simp
          · refine Or.inr ?_
            simp only [List.map_cons]
            exact List.mem_cons_of_mem _ h1
        · have := ihl
          simp only [List.length_cons]
          omega
      · constructor
        · intro x hx
          rcases hmem1 x hx with h2 | h2
          · exact Or.inl h2
          · refine Or.inr ?_
            rw [h2]
            simp
        · simp only [List.length_cons]
          omega

/-- A run of the entry loop in which every entry either already has its
destination file on disk or has no `audio/mpeg` link performs no network
request, writes no file, and raises nothing. -/
theorem entries_all_skipped (net : String → ReqOutcome) (dir : String)
    (entries : List Entry) (s : DlState)
    (h : ∀ e ∈ entries,
      s.files.contains (dir ++ "/" ++ e.title ++ ".mp3") = true ∨
      ∀ l ∈ e.links, ¬ l.type = "audio/mpeg") :
    (download_feed_entries net dir entries s).1 = false ∧
    (download_feed_entries net dir entries s).2.files = s.files ∧
    (download_feed_entries net dir entries s).2.requests = s.requests := by
  induction entries generalizing s with
  | nil => exact ⟨rfl, rfl, rfl⟩
  | cons e rest ih =>
      cases hc : s.files.contains (dir ++ "/" ++ e.title ++ ".mp3")
      · have hna : ∀ l ∈ e.links, ¬ l.type = "audio/mpeg" := by
          rcases h e (by simp) with h1 | h1
          · rw [hc] at h1
            cases h1
          · exact h1
        have hm : ¬ (s.files.contains (dir ++ "/" ++ e.title ++ ".mp3") = true) := by
          simpa using hc
        have hep : download_episode net e dir s = (false, s) := by
          simp only [download_episode, if_neg hm]
          exact links_no_audio_eq net _ e.links s hna
        simp only [download_feed_entries, hep]
        exact ih s (fun x hx => h x (by simp [hx]))
      · have hep := episode_skip_eq net e dir s hc
        simp only [download_feed_entries, hep]
        exact ih { s with log := s.log ++ ["already_downloaded_printed"] }
          (fun x hx => h x (by simp [hx]))

/-- A run of the entry loop in which every `audio/mpeg` link answers with
a success status completes without an exception, and leaves on disk the
destination file of every entry that has an `audio/mpeg` link. -/
theorem entries_success (net : String → ReqOutcome) (dir : String)
    (entries : List Entry) (s : DlState)
    (h : ∀ e ∈ entries, ∀ l ∈ e.links, is_audio l = true →
      ∃ st c, net l.href = ReqOutcome.ok st c ∧ st < 400) :
    (download_feed_entries net dir entries s).1 = false ∧
    ∀ e ∈ entries, e.links.any is_audio = true →
      (download_feed_entries net dir entries s).2.files.contains
        (dir ++ "/" ++ e.title ++ ".mp3") = true := by
  induction entries generalizing s with
  | nil => exact ⟨rfl, by simp⟩
  | cons e rest ih =>
      rcases hde : download_episode net e dir s with ⟨flag, s1⟩
      have hflag : flag = false := by
        have hh := episode_flag_false_of_ok net e dir s (h e (by simp))
        rw [hde] at hh
        simpa using hh
      subst hflag
      simp only [download_feed_entries, hde]
      obtain ⟨ihf, ihm⟩ := ih s1 (fun x hx => h x (by simp [hx]))
      refine ⟨ihf, ?_⟩
      intro x hx hax
      rcases List.mem_cons.mp hx with rfl | hx2
      · have hs1 : s1.files.contains (dir ++ "/" ++ x.title ++ ".mp3") = true := by
          cases hcc : s.files.contains (dir ++ "/" ++ x.title ++ ".mp3")
          · have h3 := (episode_all_ok net x dir s hcc (h x (by simp))).2.2
            rw [hde] at h3
            have h4 : s1.files =
                writeFile (dir ++ "/" ++ x.title ++ ".mp3") s.files := by
              rw [if_pos hax] at h3
              simpa using h3
            rw [h4]
            exact writeFile_contains_self _ _
          · have h3 := episode_contains_mono net x dir
              (dir ++ "/" ++ x.title ++ ".mp3") s hcc
            rw [hde] at h3
            simpa using h3
        exact entries_contains_mono net dir _ rest s1 hs1
      · exact ihm x hx2 hax

/-! ### C10 -/

/-- C10: when the initial streaming request of `download_file` raises a
read timeout, the attempt prints the timeout but then fails (the unbound
`response` access raises), so the timeout counts toward the 3-attempt
retry bound; with the timeout persisting, the call makes exactly 3
requests, raises `RetryError` instead of returning normally, and never
creates or writes the destination file. -/
theorem c10_timeout_attempt_fails (net : String → ReqOutcome)
    (url dest : String) (s : DlState) (h : net url = ReqOutcome.timeout) :
    (download_file net url dest s).1 = true ∧
    (download_file net url dest s).2.files = s.files ∧
    (download_file net url dest s).2.requests = s.requests + 3 ∧
    (download_file net url dest s).2.log =
      s.log ++ ["timeout_printed", "timeout_printed", "timeout_printed"] := by
  rw [download_file_timeout_eq net url dest h]
  exact ⟨rfl, rfl, rfl, rfl⟩

/-- C10 witness: the theorem applied to an always-timing-out network. -/
theorem c10_timeout_attempt_fails_witness :
    (download_file netTimeoutAll "u" "d" s0).1 = true ∧
    (download_file netTimeoutAll "u" "d" s0).2.files = [] ∧
    (download_file netTimeoutAll "u" "d" s0).2.requests = 3 ∧
    (download_file netTimeoutAll "u" "d" s0).2.log =
      ["timeout_printed", "timeout_printed", "timeout_printed"] :=
  c10_timeout_attempt_fails netTimeoutAll "u" "d" s0 rfl

/-! ### C8 -/

/-- C8: an entry none of whose links has type `audio/mpeg` is skipped by
`download_episode`: no exception is raised, no network request is
performed, and no file is created. -/
theorem c8_no_audio_skipped (net : String → ReqOutcome) (e : Entry)
    (dir : String) (s : DlState)
    (h : ∀ l ∈ e.links, ¬ l.type = "audio/mpeg") :
    (download_episode net e dir s).1 = false ∧
    (download_episode net e dir s).2.requests = s.requests ∧
    (download_episode net e dir s).2.files = s.files := by
  cases hc : s.files.contains (dir ++ "/" ++ e.title ++ ".mp3")
  · have hm : ¬ (s.files.contains (dir ++ "/" ++ e.title ++ ".mp3") = true) := by
      simpa using hc
    simp only [download_episode, if_neg hm]
    rw [links_no_audio_eq net _ e.links s h]
    exact ⟨rfl, rfl, rfl⟩
  · simp only [download_episode, if_pos hc]
    simp

/-- C8 witness: the theorem applied to an entry with only a `text/html`
link. -/
theorem c8_no_audio_skipped_witness :
    (download_episode netOk entryNoAudio "d" s0).1 = false ∧
    (download_episode netOk entryNoAudio "d" s0).2.requests = 0 ∧
    (download_episode netOk entryNoAudio "d" s0).2.files = [] :=
  c8_no_audio_skipped netOk entryNoAudio "d" s0 (by decide)

/-! ### C7 -/

/-- C7 counterexample: an entry whose links hold TWO `audio/mpeg` links
triggers two streaming downloads — the loop has no break, so the code
downloads once per matching link, not once per entry as claimed. -/
theorem c7_counterexample :
    (download_episode netOk entryTwoLinks "d" s0).2.requests = 2 ∧
    (download_episode netOk entryTwoLinks "d" s0).2.files = ["d/E2.mp3"] := by
  decide

/-- C7 amended: for an entry whose destination file does not yet exist,
`download_episode` performs one streaming download per `audio/mpeg` link
(all to the same destination path `<dir>/<entry.title>.mp3`), so exactly
one download when exactly one link matches; the destination is written
whenever at least one link matches and responds successfully. -/
theorem c7_one_request_per_audio_link (net : String → ReqOutcome) (e : Entry)
    (dir : String) (s : DlState)
    (hc : s.files.contains (dir ++ "/" ++ e.title ++ ".mp3") = false)
    (h : ∀ l ∈ e.links, is_audio l = true →
      ∃ st c, net l.href = ReqOutcome.ok st c ∧ st < 400) :
    (download_episode net e dir s).2.requests =
      s.requests + (e.links.filter is_audio).length ∧
    (download_episode net e dir s).2.files =
      (if e.links.any is_audio then
        writeFile (dir ++ "/" ++ e.title ++ ".mp3") s.files else s.files) := by
  obtain ⟨h1, h2, h3⟩ := episode_all_ok net e dir s hc h
  exact ⟨h2, h3⟩

/-- C7 witness: the amended theorem applied to the two-link entry. -/
theorem c7_one_request_per_audio_link_witness :
    (download_episode netOk entryTwoLinks "d" s0).2.requests = 2 ∧
    (download_episode netOk entryTwoLinks "d" s0).2.files = ["d/E2.mp3"] ∧
    (entryTwoLinks.links.filter is_audio).length = 2 :=
  have h := c7_one_request_per_audio_link netOk entryTwoLinks "d" s0 (by decide)
    (fun l _ _ => ⟨200, "audio-bytes", rfl, by omega⟩)
  ⟨h.1, h.2, by decide⟩

/-! ### C2 -/

/-- C2 counterexample: a download answered with HTTP 404 on every attempt
is a failing download (no file is ever created), yet the code makes
exactly ONE attempt — the `HTTPError` is caught inside `download_file`,
which then returns normally, so a non-success status does NOT count
toward retry exhaustion and no retry-exhaustion failure is reported. -/
theorem c2_counterexample :
    (download_episode net404 entryOneLink "d" s0).2.requests = 1 ∧
    (download_episode net404 entryOneLink "d" s0).2.files = [] ∧
    (download_episode net404 entryOneLink "d" s0).2.log.contains
      "unable_after_3_tries_printed" = false := by
  decide

/-- C2 amended: a connection/timeout failure does count toward retry
exhaustion: an entry whose single `audio/mpeg` link (carrying a title)
raises on every attempt makes exactly 3 attempts, creates no file, is
reported as unable to download after 3 tries, and the loop then
continues with the remaining entries of the feed.  (A non-success HTTP
status, by contrast, ends the download after a single attempt — see the
counterexample.) -/
theorem c2_conn_failure_retries_3_then_continues (net : String → ReqOutcome)
    (dir : String) (e : Entry) (rest : List Entry) (s : DlState)
    (l : Link) (t : String)
    (hl : e.links = [l]) (ht : l.type = "audio/mpeg")
    (htitle : l.title = some t)
    (hnet : net l.href = ReqOutcome.connError ∨ net l.href = ReqOutcome.timeout)
    (hc : s.files.contains (dir ++ "/" ++ e.title ++ ".mp3") = false) :
    ∃ s2 : DlState,
      download_feed_entries net dir (e :: rest) s =
        download_feed_entries net dir rest s2 ∧
      s2.requests = s.requests + 3 ∧
      s2.files = s.files ∧
      s2.log.contains "unable_after_3_tries_printed" = true := by
  have hm : ¬ (s.files.contains (dir ++ "/" ++ e.title ++ ".mp3") = true) := by
    simpa using hc
  rcases hnet with hn | hn
  · refine ⟨{ s with
        requests := s.requests + 3,
        log := (s.log ++ ["downloading_printed"]) ++
          ["unable_after_3_tries_printed"] }, ?_, rfl, rfl, by simp⟩
    simp only [download_feed_entries, download_episode, if_neg hm, hl,
      download_episode_links, if_pos ht,
      download_file_connError_eq net l.href (dir ++ "/" ++ e.title ++ ".mp3") hn,
      htitle]
  · refine ⟨{ s with
        requests := s.requests + 3,
        log := ((s.log ++ ["downloading_printed"]) ++
          ["timeout_printed", "timeout_printed", "timeout_printed"]) ++
          ["unable_after_3_tries_printed"] }, ?_, rfl, rfl, by simp⟩
    simp only [download_feed_entries, download_episode, if_neg hm, hl,
      download_episode_links, if_pos ht,
      download_file_timeout_eq net l.href (dir ++ "/" ++ e.title ++ ".mp3") hn,
      htitle]

/-- C2 witness: the amended theorem applied to a single-entry feed over a
network that always raises a connection error. -/
theorem c2_conn_failure_retries_3_then_continues_witness :
    ∃ s2 : DlState,
      download_feed_entries netConnFail "d" [entryOneLink] s0 =
        download_feed_entries netConnFail "d" [] s2 ∧
      s2.requests = 0 + 3 ∧
      s2.files = [] ∧
      s2.log.contains "unable_after_3_tries_printed" = true :=
  c2_conn_failure_retries_3_then_continues netConnFail "d" entryOneLink [] s0
    (audioLink "u1") "enclosure" rfl rfl rfl (Or.inl rfl) rfl

/-- Two consecutive runs of the entry loop under an all-successful
network: the first completes normally, and the second (on the filesystem
left by the first) completes normally with no change to the files on
disk and no further network request. -/
theorem entries_two_runs (net : String → ReqOutcome) (dir : String)
    (entries : List Entry) (s : DlState)
    (h : ∀ e ∈ entries, ∀ l ∈ e.links, is_audio l = true →
      ∃ st c, net l.href = ReqOutcome.ok st c ∧ st < 400) :
    download_feed_entries net dir entries s =
      (false, (download_feed_entries net dir entries s).2) ∧
    download_feed_entries net dir entries
        ((download_feed_entries net dir entries s).2) =
      (false, (download_feed_entries net dir entries
        ((download_feed_entries net dir entries s).2)).2) ∧
    (download_feed_entries net dir entries
        ((download_feed_entries net dir entries s).2)).2.files =
      (download_feed_entries net dir entries s).2.files ∧
    (download_feed_entries net dir entries
        ((download_feed_entries net dir entries s).2)).2.requests =
      (download_feed_entries net dir entries s).2.requests := by
  obtain ⟨hf1, hmem⟩ := entries_success net dir entries s h
  have h2 : ∀ e ∈ entries,
      (download_feed_entries net dir entries s).2.files.contains
        (dir ++ "/" ++ e.title ++ ".mp3") = true ∨
      ∀ l ∈ e.links, ¬ l.type = "audio/mpeg" := by
    intro e he
    cases hae : e.links.any is_audio
    · refine Or.inr ?_
      intro l hlmem hla
      have hany : e.links.any is_audio = true :=
        List.any_eq_true.mpr ⟨l, hlmem, by simp [is_audio, hla]⟩
      rw [hae] at hany
      cases hany
    · exact Or.inl (hmem e he hae)
  obtain ⟨hf2, hfiles2, hreq2⟩ := entries_all_skipped net dir entries
    ((download_feed_entries net dir entries s).2) h2
  refine ⟨?_, ?_, hfiles2, hreq2⟩
  · rw [← hf1]
  · rw [← hf2]

/-! ### C6 -/

/-- C6 counterexample: with a feed whose single entry's download fails on
every attempt (connection errors), the first `download_feed` run makes 3
requests and leaves no file, so the second run with the filesystem state
left by the first performs 3 further network requests — not zero as
claimed. -/
theorem c6_counterexample :
    (download_feed netConnFail feedOne "out" 3 s0).2.files = [] ∧
    (download_feed netConnFail feedOne "out" 3 s0).2.requests = 3 ∧
    (download_feed netConnFail feedOne "out" 3
        ((download_feed netConnFail feedOne "out" 3 s0).2)).2.requests = 6 := by
  decide

/-- C6 amended: `download_feed` is idempotent PROVIDED the considered
entries' downloads succeed: if every `audio/mpeg` link of the first
`limit` entries responds with a success status, then a second run with
the same feed and the filesystem state left by the first run completes
normally, performs zero network requests, and leaves the set of files on
disk unchanged (each entry is skipped by the destination-exists check or
has no audio link). -/
theorem c6_idempotent_after_success (net : String → ReqOutcome) (feed : Feed)
    (out_dir : String) (limit : Nat) (s : DlState)
    (h : ∀ e ∈ feed.entries.take limit, ∀ l ∈ e.links, is_audio l = true →
      ∃ st c, net l.href = ReqOutcome.ok st c ∧ st < 400) :
    ∃ s1 s2 : DlState,
      download_feed net feed out_dir limit s = (false, s1) ∧
      download_feed net feed out_dir limit s1 = (false, s2) ∧
      s2.files = s1.files ∧
      s2.requests = s1.requests := by
  have key := entries_two_runs net (out_dir ++ "/" ++ sanitize_title feed.title)
    (feed.entries.take limit)
    (if s.dirs.contains (out_dir ++ "/" ++ sanitize_title feed.title) = true then s
     else { s with dirs := s.dirs ++ [out_dir ++ "/" ++ sanitize_title feed.title] })
    h
  have hd1 : ((download_feed_entries net
      (out_dir ++ "/" ++ sanitize_title feed.title) (feed.entries.take limit)
      (if s.dirs.contains (out_dir ++ "/" ++ sanitize_title feed.title) = true then s
       else { s with
          dirs := s.dirs ++ [out_dir ++ "/" ++ sanitize_title feed.title] })).2).dirs.contains
      (out_dir ++ "/" ++ sanitize_title feed.title) = true := by
    rw [entries_dirs_eq]
    cases hb : s.dirs.contains (out_dir ++ "/" ++ sanitize_title feed.title)
    · simp
    · have hbm : (out_dir ++ "/" ++ sanitize_title feed.title) ∈ s.dirs := by
        simpa using hb
      simp [hb, hbm]
  have hrun2 : download_feed net feed out_dir limit
      ((download_feed_entries net (out_dir ++ "/" ++ sanitize_title feed.title)
        (feed.entries.take limit)
        (if s.dirs.contains (out_dir ++ "/" ++ sanitize_title feed.title) = true then s
         else { s with
            dirs := s.dirs ++ [out_dir ++ "/" ++ sanitize_title feed.title] })).2) =
      download_feed_entries net (out_dir ++ "/" ++ sanitize_title feed.title)
        (feed.entries.take limit)
        ((download_feed_entries net (out_dir ++ "/" ++ sanitize_title feed.title)
          (feed.entries.take limit)
          (if s.dirs.contains (out_dir ++ "/" ++ sanitize_title feed.title) = true then s
           else { s with
              dirs := s.dirs ++ [out_dir ++ "/" ++ sanitize_title feed.title] })).2) := by
    simp only [download_feed]
    rw [if_pos hd1]
  refine ⟨_, _, ?_, ?_, key.2.2.1, key.2.2.2⟩
  · exact key.1
  · rw [hrun2]
    exact key.2.1

/-- C6 witness: the amended theorem applied to a one-entry feed over an
all-successful network. -/
theorem c6_idempotent_after_success_witness :
    ∃ s1 s2 : DlState,
      download_feed netOk feedOne "out" 3 s0 = (false, s1) ∧
      download_feed netOk feedOne "out" 3 s1 = (false, s2) ∧
      s2.files = s1.files ∧
      s2.requests = s1.requests :=
  c6_idempotent_after_success netOk feedOne "out" 3 s0
    (fun _ _ _ _ _ => ⟨200, "audio-bytes", rfl, by omega⟩)

/-! ### C9 -/

/-- C9: `download_feed` considers at most `limit` entries from the front
of the stored entry list: every file it can create is the destination
path of one of the first `limit` stored entries (inside the directory
`output_root / feed.title` with `/` replaced by `_`), at most
`min limit (number of stored entries)` files are added, and the feed
directory is present (created if absent) after the run. -/
theorem c9_download_feed_bounds (net : String → ReqOutcome) (feed : Feed)
    (out_dir : String) (limit : Nat) (s : DlState) :
    (out_dir ++ "/" ++ sanitize_title feed.title) ∈
      (download_feed net feed out_dir limit s).2.dirs ∧
    (∀ x ∈ (download_feed net feed out_dir limit s).2.files,
      x ∈ s.files ∨ x ∈ (feed.entries.take limit).map
        (fun e => out_dir ++ "/" ++ sanitize_title feed.title ++ "/" ++
          e.title ++ ".mp3")) ∧
    (download_feed net feed out_dir limit s).2.files.length ≤
      s.files.length + min limit feed.entries.length := by
  cases hb : s.dirs.contains (out_dir ++ "/" ++ sanitize_title feed.title)
  · have hm : ¬ (s.dirs.contains (out_dir ++ "/" ++ sanitize_title feed.title)
        = true) := by simpa using hb
    simp only [download_feed, if_neg hm]
    refine ⟨?_, ?_, ?_⟩
    · rw [entries_dirs_eq]
      simp
    · intro x hx
      exact (entries_files_scope net (out_dir ++ "/" ++ sanitize_title feed.title)
        (feed.entries.take limit)
        { s with dirs := s.dirs ++ [out_dir ++ "/" ++ sanitize_title feed.title] }).1
        x hx
    · have hl := (entries_files_scope net
        (out_dir ++ "/" ++ sanitize_title feed.title) (feed.entries.take limit)
        { s with dirs := s.dirs ++ [out_dir ++ "/" ++ sanitize_title feed.title] }).2
      simpa [List.length_take] using hl
  · simp only [download_feed, if_pos hb]
    refine ⟨?_, ?_, ?_⟩
    · rw [entries_dirs_eq]
      simpa using hb
    · intro x hx
      exact (entries_files_scope net (out_dir ++ "/" ++ sanitize_title feed.title)
        (feed.entries.take limit) s).1 x hx
    · have hl := (entries_files_scope net
        (out_dir ++ "/" ++ sanitize_title feed.title) (feed.entries.take limit) s).2
      simpa [List.length_take] using hl

/-- C9 witness: the bound evaluated on a one-entry feed with limit 3. -/
theorem c9_download_feed_bounds_witness :
    ("out" ++ "/" ++ sanitize_title feedOne.title) ∈
      (download_feed netOk feedOne "out" 3 s0).2.dirs ∧
    (download_feed netOk feedOne "out" 3 s0).2.files.length ≤
      0 + min 3 1 :=
  have h := c9_download_feed_bounds netOk feedOne "out" 3 s0
  ⟨h.1, h.2.2⟩

/-! ### Refresher helper lemmas and fixtures -/

/-- Retry bound `stop_after_attempt(3)`: when every attempt raises, the wrapper makes
exactly 3 attempts and then raises `RetryError`. -/
theorem retry_exhausts_after_3 {α : Type} (attempt : Nat → Option α)
    (h : ∀ k, attempt k = none) :
    retry_stop_after_3 attempt = (none, 3) := by
  simp [retry_stop_after_3, h]

/-- The candidate loop of `update_feeds` on a candidate list split around
the first feed whose fetch raises `RetryError`: the loop aborts there,
keeping only the updates of the candidates before it. -/
theorem go_append_abort (net : String → Nat → Option ParsedFeed) (now : Int)
    (max_e : Nat) (cs2 : List Feed) (f : Feed)
    (hf : parse_feed net f.url = none) :
    ∀ (cs1 store : List Feed),
      (∀ g ∈ cs1, parse_feed net g.url ≠ none) →
      update_feeds_go net now max_e (cs1 ++ f :: cs2) store =
        (true, (update_feeds_go net now max_e cs1 store).2) := by
  intro cs1
  induction cs1 with
  | nil =>
      intro store h1
      simp [update_feeds_go, hf]
  | cons c rest ih =>
      intro store h1
      rcases ho : parse_feed net c.url with _ | pf
      · exact absurd ho (h1 c (by simp))
      · simp only [List.cons_append, update_feeds_go, ho]
        exact ih _ (fun g hg => h1 g (by simp [hg]))

/-! ### C1 -/

/-- C1 counterexample: candidates `A` then `B`, both stale; every fetch
attempt of `A` raises while `B` would parse fine.  `update_feeds` has no
handler around `parse_feed`, so the `RetryError` escapes (abort flag) and
the store is left untouched: the subsequent candidate `B` is never
processed, refuting "refresh of one feed never aborts the batch". -/
theorem c1_counterexample :
    (update_feeds netFeedsAfail 0 [feedA, feedB] 5 false).1 = true ∧
    (update_feeds netFeedsAfail 0 [feedA, feedB] 5 false).2 = [feedA, feedB] ∧
    parse_feed netFeedsAfail feedB.url = some { entries := [mkEntry "X"] } := by
  decide

/-- C1 amended: when fetching a candidate feed fails on all 3 retry
attempts, the `RetryError` propagates out of `update_feeds`: the run
aborts, the final store is exactly the store after the candidates that
preceded the failing feed (their updates remain persisted), and neither
the failing feed nor any later candidate is refreshed. -/
theorem c1_fetch_failure_aborts_batch (net : String → Nat → Option ParsedFeed)
    (now : Int) (store : List Feed) (max_e : Nat) (force : Bool)
    (cs1 cs2 : List Feed) (f : Feed)
    (hsplit : unfresh_feeds now force store = cs1 ++ f :: cs2)
    (h1 : ∀ g ∈ cs1, parse_feed net g.url ≠ none)
    (hf : parse_feed net f.url = none) :
    update_feeds net now store max_e force =
      (true, (update_feeds_go net now max_e cs1 store).2) := by
  unfold update_feeds
  rw [hsplit]
  exact go_append_abort net now max_e cs2 f hf cs1 store h1

/-- C1 witness: the amended theorem on the two-feed store where the first
candidate's fetch always raises. -/
theorem c1_fetch_failure_aborts_batch_witness :
    update_feeds netFeedsAfail 0 [feedA, feedB] 5 false =
      (true, (update_feeds_go netFeedsAfail 0 5 [] [feedA, feedB]).2) :=
  c1_fetch_failure_aborts_batch netFeedsAfail 0 [feedA, feedB] 5 false
    [] [feedB] feedA (by decide) (by simp) (by decide)

/-! ### C3 -/

/-- C3 counterexample: at `now = 129600` seconds, `feedHalfStale`
(refreshed at 0) is 1.5 days old — strictly older than 1 day — yet
`(utcnow - dt).days > 1` is false (the floored day count is 1), so the
feed is NOT in the stale-selection set, refuting "every feed with
last_updated older than 1 day is included". -/
theorem c3_counterexample :
    (86400 : Int) < 129600 - 0 ∧
    feedHalfStale.last_updated = some 0 ∧
    older_than_1_day 129600 feedHalfStale.last_updated = false ∧
    unfresh_feeds 129600 false [feedHalfStale] = [] := by
  decide

/-- C3 amended: without force mode the stale-selection set contains a
stored feed `F` exactly when `F.last_updated` is null or at least two
whole days (172800 s) have elapsed — `(utcnow - dt).days > 1` holds iff
the floored day count is at least 2, so feeds between 1 and 2 days old
are excluded. -/
theorem c3_stale_selection (now : Int) (store : List Feed) (F : Feed)
    (hmem : F ∈ store) :
    F ∈ unfresh_feeds now false store ↔
      (F.last_updated = none ∨
        ∃ t, F.last_updated = some t ∧ 172800 ≤ now - t) := by
  have hsel : F ∈ unfresh_feeds now false store ↔
      older_than_1_day now F.last_updated = true := by
    simp [unfresh_feeds, List.mem_filter, hmem]
  rw [hsel]
  cases hdt : F.last_updated with
  | none => simp [older_than_1_day]
  | some t =>
      have hiff : (1 < Int.fdiv (now - t) 86400) ↔ 172800 ≤ now - t := by
        rw [Int.fdiv_eq_ediv _ (by norm_num)]
        omega
      simp [older_than_1_day, hiff]

/-- C3 witness: the amended characterization on a two-day-old feed. -/
theorem c3_stale_selection_witness :
    feedHalfStale ∈ unfresh_feeds 200000 false [feedHalfStale] ↔
      (feedHalfStale.last_updated = none ∨
        ∃ t, feedHalfStale.last_updated = some t ∧ 172800 ≤ 200000 - t) :=
  c3_stale_selection 200000 [feedHalfStale] feedHalfStale (by simp)

/-- Updating `store_update` with a different key leaves the documents with title
`t` untouched. -/
theorem store_update_filter_ne (u t : String) (e : List Entry) (now : Int)
    (s : List Feed) (h : ¬ u = t) :
    (store_update u e now s).filter (fun g => g.title == t) =
      s.filter (fun g => g.title == t) := by
  induction s with
  | nil => rfl
  | cons g rest ih =>
      simp only [store_update, List.map_cons] at ih ⊢
      by_cases hg : g.title = u
      · have hgt : (g.title == t) = false :=
          beq_eq_false_iff_ne.mpr (by rw [hg]; exact h)
        rw [if_pos hg]
        simp only [List.filter_cons]
        simp [hgt, ih]
      · rw [if_neg hg]
        simp only [List.filter_cons]
        rw [ih]

/-- Updating with `store_update` keyed on `t` rewrites exactly the documents with title
`t`, setting their `entries` and `last_updated` fields. -/
theorem store_update_filter_eq (t : String) (e : List Entry) (now : Int)
    (s : List Feed) :
    (store_update t e now s).filter (fun g => g.title == t) =
      (s.filter (fun g => g.title == t)).map
        (fun g => { g with entries := e, last_updated := some now }) := by
  induction s with
  | nil => rfl
  | cons g rest ih =>
      simp only [store_update, List.map_cons] at ih ⊢
      by_cases hg : g.title = t
      · have hgt : (g.title == t) = true := by simp [hg]
        rw [if_pos hg]
        simp only [List.filter_cons]
        simp [hgt, ih]
      · have hgt : (g.title == t) = false := beq_eq_false_iff_ne.mpr hg
        rw [if_neg hg]
        simp only [List.filter_cons]
        simp [hgt, ih]

/-- A run of the candidate loop whose candidates all fetch successfully
and none of which is keyed `t` leaves the documents titled `t`
untouched. -/
theorem go_filter_untouched (net : String → Nat → Option ParsedFeed)
    (now : Int) (max_e : Nat) (t : String) :
    ∀ (cs store : List Feed),
      (∀ g ∈ cs, parse_feed net g.url ≠ none) →
      (∀ g ∈ cs, ¬ g.title = t) →
      ((update_feeds_go net now max_e cs store).2).filter
          (fun g => g.title == t) =
        store.filter (fun g => g.title == t) := by
  intro cs
  induction cs with
  | nil =>
      intro store hok ht
      rfl
  | cons c rest ih =>
      intro store hok ht
      rcases ho : parse_feed net c.url with _ | pf
      · exact absurd ho (hok c (by simp))
      · simp only [update_feeds_go, ho]
        rw [ih _ (fun g hg => hok g (by simp [hg]))
          (fun g hg => ht g (by simp [hg]))]
        exact store_update_filter_ne c.title t _ now store (ht c (by simp))

/-- A run of the candidate loop whose candidates all fetch successfully
completes without an exception. -/
theorem go_all_ok_completes (net : String → Nat → Option ParsedFeed)
    (now : Int) (max_e : Nat) :
    ∀ (cs store : List Feed),
      (∀ g ∈ cs, parse_feed net g.url ≠ none) →
      (update_feeds_go net now max_e cs store).1 = false := by
  intro cs
  induction cs with
  | nil =>
      intro store hok
      rfl
  | cons c rest ih =>
      intro store hok
      rcases ho : parse_feed net c.url with _ | pf
      · exact absurd ho (hok c (by simp))
      · simp only [update_feeds_go, ho]
        exact ih _ (fun g hg => hok g (by simp [hg]))

/-- In a fully successful run whose candidate titles are distinct, the
documents titled `t` end up refreshed with the entries fetched for the
(unique) candidate keyed `t`. -/
theorem go_filter_updated (net : String → Nat → Option ParsedFeed)
    (now : Int) (max_e : Nat) (t : String) (pf : ParsedFeed) :
    ∀ (cs store : List Feed),
      (∀ g ∈ cs, parse_feed net g.url ≠ none) →
      ((cs.map Feed.title).Nodup) →
      (∀ c ∈ cs, c.title = t → parse_feed net c.url = some pf) →
      (∃ c ∈ cs, c.title = t) →
      ((update_feeds_go net now max_e cs store).2).filter
          (fun g => g.title == t) =
        (store.filter (fun g => g.title == t)).map
          (fun g => { g with
            entries := pf.entries.take max_e, last_updated := some now }) := by
  intro cs
  induction cs with
  | nil =>
      intro store hok hnd hpf hex
      obtain ⟨c, hc, _⟩ := hex
      cases hc
  | cons c rest ih =>
      intro store hok hnd hpf hex
      rcases ho : parse_feed net c.url with _ | pfc
      · exact absurd ho (hok c (by simp))
      · simp only [update_feeds_go, ho]
        by_cases hct : c.title = t
        · have hpfc : pfc = pf := by
            have h2 := hpf c (by simp) hct
            rw [ho] at h2
            exact Option.some.inj h2
          subst hpfc
          have hrest_ne : ∀ g ∈ rest, ¬ g.title = t := by
            intro g hg hgt
            have hcn : c.title ∉ rest.map Feed.title :=
              (List.nodup_cons.mp (by simpa using hnd)).1
            exact hcn (by
              rw [hct, ← hgt]
              exact List.mem_map_of_mem Feed.title hg)
          rw [go_filter_untouched net now max_e t rest _
            (fun g hg => hok g (by simp [hg])) hrest_ne]
          rw [hct] at *
          exact store_update_filter_eq t _ now store
        · obtain ⟨d, hd, hdt⟩ := hex
          rcases List.mem_cons.mp hd with rfl | hd2
          · exact absurd hdt hct
          · rw [ih _ (fun g hg => hok g (by simp [hg]))
              ((List.nodup_cons.mp (by simpa using hnd)).2)
              (fun g hg hgt => hpf g (by simp [hg]) hgt) ⟨d, hd2, hdt⟩]
            rw [store_update_filter_ne c.title t _ now store hct]

/-! ### C4 -/

/-- C4: in a run of `update_feeds` whose candidate fetches all succeed
(over a store with distinct titles), the run completes and, for every
candidate `f` fetched as `pf`, the store still holds a document keyed
`f.title`, and every document with that title now carries exactly the
first `min(fetched_count, max_entries_per_feed)` fetched entries in
source order and `last_updated = now` — regardless of whether the entry
list changed. -/
theorem c4_refresh_truncates (net : String → Nat → Option ParsedFeed)
    (now : Int) (store : List Feed) (max_e : Nat) (force : Bool)
    (f : Feed) (pf : ParsedFeed)
    (hmem : f ∈ unfresh_feeds now force store)
    (hnodup : (store.map Feed.title).Nodup)
    (hok : ∀ g ∈ unfresh_feeds now force store, parse_feed net g.url ≠ none)
    (hf : parse_feed net f.url = some pf) :
    (update_feeds net now store max_e force).1 = false ∧
    (∃ g ∈ (update_feeds net now store max_e force).2, g.title = f.title) ∧
    (∀ g ∈ (update_feeds net now store max_e force).2, g.title = f.title →
      g.entries = pf.entries.take max_e ∧
      g.entries.length = min pf.entries.length max_e ∧
      g.last_updated = some now) := by
  have hndcs : ((unfresh_feeds now force store).map Feed.title).Nodup := by
    unfold unfresh_feeds
    cases force
    · simp only [Bool.false_eq_true, if_false]
      exact hnodup.sublist ((List.filter_sublist store).map Feed.title)
    · simpa using hnodup
  have hpf_all : ∀ c ∈ unfresh_feeds now force store, c.title = f.title →
      parse_feed net c.url = some pf := by
    intro c hc hct
    have : c = f := List.inj_on_of_nodup_map hndcs hc hmem hct
    rw [this]
    exact hf
  have hfilter := go_filter_updated net now max_e f.title pf
    (unfresh_feeds now force store) store hok hndcs hpf_all ⟨f, hmem, rfl⟩
  have hflag := go_all_ok_completes net now max_e
    (unfresh_feeds now force store) store hok
  have hfmem : f ∈ store := by
    revert hmem
    unfold unfresh_feeds
    cases force
    · simp only [Bool.false_eq_true, if_false]
      intro hmem
      exact (List.mem_filter.mp hmem).1
    · simp
  refine ⟨hflag, ?_, ?_⟩
  · -- a document keyed f.title survives: the refreshed image of f itself
    have hfin : ({ f with
        entries := pf.entries.take max_e
        last_updated := some now } : Feed) ∈
        ((update_feeds net now store max_e force).2).filter
          (fun g => g.title == f.title) := by
      show _ ∈ ((update_feeds_go net now max_e
        (unfresh_feeds now force store) store).2).filter (fun g => g.title == f.title)
      rw [hfilter]
      exact List.mem_map_of_mem _
        (List.mem_filter.mpr ⟨hfmem, by simp⟩)
    exact ⟨_, (List.mem_filter.mp hfin).1, rfl⟩
  · intro g hg hgt
    have hgf : g ∈ ((update_feeds net now store max_e force).2).filter
        (fun g => g.title == f.title) :=
      List.mem_filter.mpr ⟨hg, by simp [hgt]⟩
    rw [show ((update_feeds net now store max_e force).2) =
        ((update_feeds_go net now max_e (unfresh_feeds now force store)
          store).2) from rfl, hfilter] at hgf
    obtain ⟨g0, _, hg0⟩ := List.mem_map.mp hgf
    refine ⟨?_, ?_, ?_⟩
    · rw [← hg0]
    · rw [← hg0]
      simp only [List.length_take]
      exact Nat.min_comm max_e pf.entries.length
    · rw [← hg0]

/-- C4 witness: refreshing the never-updated feed `A` with
`max_entries_per_feed = 2` against a 5-entry fetch. -/
theorem c4_refresh_truncates_witness :
    (update_feeds netFeeds5 1000 [feedA] 2 false).1 = false ∧
    (∃ g ∈ (update_feeds netFeeds5 1000 [feedA] 2 false).2,
      g.title = feedA.title) ∧
    (∀ g ∈ (update_feeds netFeeds5 1000 [feedA] 2 false).2,
      g.title = feedA.title →
      g.entries = [mkEntry "X1", mkEntry "X2", mkEntry "X3", mkEntry "X4",
        mkEntry "X5"].take 2 ∧
      g.entries.length = min 5 2 ∧
      g.last_updated = some 1000) :=
  c4_refresh_truncates netFeeds5 1000 [feedA] 2 false feedA
    { entries := [mkEntry "X1", mkEntry "X2", mkEntry "X3", mkEntry "X4",
        mkEntry "X5"] }
    (by decide) (by decide) (by decide) rfl

/-! ### C5 -/

/-- C5: `import_opml(feeds, file)` ignores its `file` argument and parses
the hard-coded path `"podcasts_opml.xml"` instead: parsing the given
source `my_subs.xml` would yield one candidate feed (with empty entries
and null `last_updated`), yet importing with that very argument adds
nothing to the store. -/
theorem c5_opml_source_ignored :
    parse_opml opmlFsC5 "my_subs.xml" =
      [{ title := "NewShow", url := "newurl", entries := [],
         last_updated := none }] ∧
    import_opml opmlFsC5 [] "my_subs.xml" = [] := by
  decide
